import Mathlib

/-!
Verification of the tokenscope token-usage and cost-accounting engine
(`src/plugin/tokenscope-lib` and companion modules).

JavaScript strings that are inspected character by character (trimmed,
lower-cased, measured, prefix-tested) are modelled as `List Char`; strings
that are only compared for equality (roles, labels, session ids, statuses)
stay `String`.  JavaScript numbers holding token counts are modelled as
`Nat` (the host supplies non-negative integer telemetry); monetary values
are modelled as `ℚ`.  `a - b` on `Nat` models `Math.max(0, a - b)` on
integers.  `Array.prototype.sort` (stable since ES2019) with comparator
`(a, b) => b.k - a.k` is modelled by `List.insertionSort` with the total
relation `b.k ≤ a.k`, which is a stable descending sort.
-/

/-- JS `!s.trim()`: a string is blank iff every character is whitespace
(`String.prototype.trim` strips whitespace from both ends). -/
def jsIsBlank (content : List Char) : Bool :=
  content.all Char.isWhitespace

/-- JS `s.trim()`: drop leading and trailing whitespace. -/
def jsTrim (content : List Char) : List Char :=
  ((content.dropWhile Char.isWhitespace).reverse.dropWhile Char.isWhitespace).reverse

/-- JS `s.toLowerCase()` restricted to the ASCII range the pricing keys and
model ids use. -/
def jsToLower (content : List Char) : List Char :=
  content.map Char.toLower

/-- JS `s.split(sep)` for a single-character separator. -/
def splitOnChar (sep : Char) : List Char → List (List Char)
  | [] => [[]]
  | c :: rest =>
    match splitOnChar sep rest with
    | [] => [[c]]
    | seg :: segs => if c = sep then [] :: seg :: segs else (c :: seg) :: segs

/-- Tokenizer strategy variants from `types.ts` (`TokenizerSpec`). -/
inductive TokenizerSpec where
  | approx
  | tiktoken (model : String)
  | transformers (hub : String)
deriving DecidableEq

/-- `TokenModel` from `types.ts`: display name plus strategy. -/
structure TokenModel where
  name : List Char
  spec : TokenizerSpec
deriving DecidableEq

/-- `TokenizerManager.approximateTokenCount`: `Math.ceil(content.length / 4)`. -/
def approximateTokenCount (content : List Char) : Nat :=
  (content.length + 3) / 4

/-- `TokenizerManager.countTokens` from `tokenizer.ts`.  Blank content
returns 0 before any backend is consulted; the `approx` strategy uses the
length formula; the exact strategies delegate to the lazily loaded
encoders, abstracted here as the pure function `backend` (their
fallback-to-approximation error handling lives inside that abstraction). -/
def countTokens (backend : TokenizerSpec → List Char → Nat)
    (content : List Char) (model : TokenModel) : Nat :=
  if jsIsBlank content then 0
  else
    match model.spec with
    | .approx => approximateTokenCount content
    | spec => backend spec content

/-- `ModelPricing` from `types.ts`: USD per 1,000,000 tokens. -/
structure ModelPricing where
  input : ℚ
  output : ℚ
  cacheWrite : ℚ
  cacheRead : ℚ
deriving DecidableEq

/-- The pricing catalog (`Record<string, ModelPricing>`), modelled as an
association list in object-insertion order, which is the order
`Object.entries` iterates for these non-numeric keys. -/
abbrev PricingCatalog := List (List Char × ModelPricing)

/-- JS `pricingData[key]` presence lookup (keys are unique in an object). -/
def lookupKey (pricingData : PricingCatalog) (key : List Char) : Option ModelPricing :=
  (pricingData.find? (fun kv => kv.1 = key)).map (·.2)

/-- `CostCalculator.normalizeModelName`: keep the text after the last `/`
when one is present, falling back to the whole name if that segment is
empty (`split("/").pop() || modelName`). -/
def normalizeModelName (modelName : List Char) : List Char :=
  if modelName.contains '/' then
    let seg := (splitOnChar '/' modelName).getLastD modelName
    if seg.isEmpty then modelName else seg
  else modelName

/-- Hard-coded fallback used when the catalog has no `default` entry. -/
def defaultFallbackPricing : ModelPricing :=
  { input := 1, output := 3, cacheWrite := 0, cacheRead := 0 }

/-- `CostCalculator.getPricing` from `cost.ts`: exact match on the
normalized name, else the first entry (in catalog order) whose key is a
case-insensitive prefix of the normalized name, else the `default` entry,
else a hard-coded fallback. -/
def getPricing (pricingData : PricingCatalog) (modelName : List Char) : ModelPricing :=
  let normalizedName := normalizeModelName modelName
  match lookupKey pricingData normalizedName with
  | some p => p
  | none =>
    let lowerModel := jsToLower normalizedName
    match pricingData.find? (fun kv => (jsToLower kv.1).isPrefixOf lowerModel) with
    | some kv => kv.2
    | none => (lookupKey pricingData "default".toList).getD defaultFallbackPricing

/-- The spec's description of the fallback lookup, for comparison with
`getPricing`: among the case-insensitive prefix matches pick the one with
the longest key (instead of the first in catalog order). -/
def getPricingByLongest (pricingData : PricingCatalog) (modelName : List Char) : ModelPricing :=
  let normalizedName := normalizeModelName modelName
  match lookupKey pricingData normalizedName with
  | some p => p
  | none =>
    let lowerModel := jsToLower normalizedName
    let candidates := pricingData.filter (fun kv => (jsToLower kv.1).isPrefixOf lowerModel)
    match candidates.foldl
        (fun best kv =>
          match best with
          | none => some kv
          | some b => if b.1.length < kv.1.length then some kv else best)
        none with
    | some kv => kv.2
    | none => (lookupKey pricingData "default".toList).getD defaultFallbackPricing

/-- Nested `tokens.cache` object of provider telemetry (`TokenUsage` in
`types.ts`); absent fields are treated as 0 by every consumer. -/
structure CacheUsage where
  read : Option Nat
  write : Option Nat
deriving DecidableEq

/-- Provider-reported token telemetry attached to a message. -/
structure TokenUsage where
  input : Option Nat
  output : Option Nat
  reasoning : Option Nat
  cache : Option CacheUsage
deriving DecidableEq

/-- `Number(tokens.input) || 0`. -/
def TokenUsage.inputD (t : TokenUsage) : Nat := t.input.getD 0

/-- `Number(tokens.output) || 0`. -/
def TokenUsage.outputD (t : TokenUsage) : Nat := t.output.getD 0

/-- `Number(tokens.reasoning) || 0`. -/
def TokenUsage.reasoningD (t : TokenUsage) : Nat := t.reasoning.getD 0

/-- `Number(tokens.cache?.read) || 0`. -/
def TokenUsage.cacheReadD (t : TokenUsage) : Nat := (t.cache.bind (·.read)).getD 0

/-- `Number(tokens.cache?.write) || 0`. -/
def TokenUsage.cacheWriteD (t : TokenUsage) : Nat := (t.cache.bind (·.write)).getD 0

/-- Sum of the five telemetry classes of one message. -/
def TokenUsage.totalD (t : TokenUsage) : Nat :=
  t.inputD + t.outputD + t.reasoningD + t.cacheReadD + t.cacheWriteD

/-- Defaulted accessors lifted to an optional telemetry record. -/
def optInputD (t : Option TokenUsage) : Nat := (t.map TokenUsage.inputD).getD 0

def optOutputD (t : Option TokenUsage) : Nat := (t.map TokenUsage.outputD).getD 0

def optReasoningD (t : Option TokenUsage) : Nat := (t.map TokenUsage.reasoningD).getD 0

def optCacheReadD (t : Option TokenUsage) : Nat := (t.map TokenUsage.cacheReadD).getD 0

def optCacheWriteD (t : Option TokenUsage) : Nat := (t.map TokenUsage.cacheWriteD).getD 0

/-- Tool-call part state (`ToolState` in `types.ts`).  The dynamic fields
the skill analyzer probes (`state.input.name`, `state.metadata.name`, the
`Loaded skill:` title pattern) are modelled by the optional extracted
values they would yield; `output` is the optional raw output string. -/
structure ToolState where
  status : String
  inputName : Option String
  metadataName : Option String
  titleName : Option String
  output : Option (List Char)
deriving DecidableEq

/-- Message part variants (`SessionMessagePart` in `types.ts`); parts with
unknown tags are `other` and are ignored by every consumer. -/
inductive SessionMessagePart where
  | text (content : List Char)
  | reasoning (content : List Char)
  | tool (tool : String) (state : ToolState)
  | other
deriving DecidableEq

/-- Message header (`SessionMessageInfo` in `types.ts`), restricted to the
fields the analyzers consume. -/
structure SessionMessageInfo where
  role : String
  modelID : Option (List Char)
  tokens : Option TokenUsage
  cost : Option ℚ
deriving DecidableEq

/-- One transcript message. -/
structure SessionMessage where
  info : SessionMessageInfo
  parts : List SessionMessagePart
deriving DecidableEq

/-- `SkillAnalyzer.extractSkillName`: `state.input.name`, then
`state.metadata.name`, then the `Loaded skill:` title pattern. -/
def extractSkillName (state : ToolState) : Option String :=
  (state.inputName.orElse fun _ => state.metadataName).orElse fun _ => state.titleName

/-- Accumulator entry of `getLoadedSkills`'s `skillMap`, in insertion
order (JS `Map` iterates in insertion order). -/
structure SkillMapEntry where
  name : String
  callCount : Nat
  firstMessageIndex : Nat
  tokens : Nat
  content : List Char
deriving DecidableEq

/-- Stored preview content: `content.length > 500 ? content.substring(0, 500) + "..." : content`. -/
def truncateSkillContent (content : List Char) : List Char :=
  if 500 < content.length then content.take 500 ++ "...".toList else content

/-- Increment the call count of the (unique) entry with the given name. -/
def bumpSkill (acc : List SkillMapEntry) (name : String) : List SkillMapEntry :=
  acc.map fun e => if e.name = name then { e with callCount := e.callCount + 1 } else e

/-- The `existing`/fresh branch of the skill-map update: bump the call
count when the name is already tracked, otherwise tokenize the content
(once) and append a fresh entry. -/
def insertSkill (tokCount : List Char → Nat) (acc : List SkillMapEntry)
    (msgIdx : Nat) (name : String) (content : List Char) : List SkillMapEntry :=
  if acc.any (fun e => e.name == name) then bumpSkill acc name
  else acc ++ [{ name := name, callCount := 1, firstMessageIndex := msgIdx,
                 tokens := tokCount content, content := truncateSkillContent content }]

/-- Body of the inner part loop of `getLoadedSkills`: only completed
`skill` tool parts with an extractable name and non-empty trimmed output
touch the map. -/
def processSkillPart (tokCount : List Char → Nat) (msgIdx : Nat)
    (acc : List SkillMapEntry) : SessionMessagePart → List SkillMapEntry
  | .tool toolName state =>
    if toolName = "skill" ∧ state.status = "completed" then
      match extractSkillName state with
      | some name =>
        let content := jsTrim (state.output.getD [])
        if content.isEmpty then acc else insertSkill tokCount acc msgIdx name content
      | none => acc
    else acc
  | _ => acc

/-- Outer message loop of `getLoadedSkills`: the message index counts
user/assistant messages and is advanced before the parts are scanned. -/
def processSkillMessages (tokCount : List Char → Nat) :
    List SessionMessage → Nat → List SkillMapEntry → List SkillMapEntry
  | [], _, acc => acc
  | m :: rest, msgIdx, acc =>
    let msgIdx' := if m.info.role = "user" ∨ m.info.role = "assistant" then msgIdx + 1 else msgIdx
    processSkillMessages tokCount rest msgIdx' (m.parts.foldl (processSkillPart tokCount msgIdx') acc)

/-- `LoadedSkill` from `types.ts`. -/
structure LoadedSkill where
  name : String
  callCount : Nat
  firstMessageIndex : Nat
  tokens : Nat
  totalTokens : Nat
  content : List Char
deriving DecidableEq

/-- Conversion of a map entry, applying the billing multiplier
`totalTokens = tokens * callCount`. -/
def mkLoadedSkill (e : SkillMapEntry) : LoadedSkill :=
  { name := e.name, callCount := e.callCount, firstMessageIndex := e.firstMessageIndex,
    tokens := e.tokens, totalTokens := e.tokens * e.callCount, content := e.content }

/-- Descending order on `totalTokens`, the comparator
`(a, b) => b.totalTokens - a.totalTokens` of the final sort. -/
def loadedSkillRel (a b : LoadedSkill) : Prop := b.totalTokens ≤ a.totalTokens

instance : DecidableRel loadedSkillRel := fun a b => Nat.decLe b.totalTokens a.totalTokens

instance : IsTotal LoadedSkill loadedSkillRel := ⟨fun a b => Nat.le_total b.totalTokens a.totalTokens⟩

instance : IsTrans LoadedSkill loadedSkillRel := ⟨fun _ _ _ h h' => le_trans h' h⟩

/-- Result record of `getLoadedSkills`. -/
structure LoadedSkillsResult where
  skills : List LoadedSkill
  totalTokens : Nat

/-- `SkillAnalyzer.getLoadedSkills` from `skill.ts`, with the tokenizer
call abstracted as the pure `tokCount`. -/
def getLoadedSkills (tokCount : List Char → Nat) (messages : List SessionMessage) :
    LoadedSkillsResult :=
  let entries := processSkillMessages tokCount messages 0 []
  let skills := entries.map mkLoadedSkill
  { skills := skills.insertionSort loadedSkillRel,
    totalTokens := (skills.map (·.totalTokens)).sum }

/-- Qualifying-invocation test used to state the billing property: the
trimmed output of a completed `skill` tool part whose extracted name is
`s`, when that output is non-empty. -/
def partSkillContent (s : String) : SessionMessagePart → Option (List Char)
  | .tool toolName state =>
    if toolName = "skill" ∧ state.status = "completed" ∧ extractSkillName state = some s
        ∧ ¬(jsTrim (state.output.getD [])).isEmpty
    then some (jsTrim (state.output.getD []))
    else none
  | _ => none

/-- Outputs of the qualifying invocations of skill `s`, in transcript order. -/
def skillCallContents (s : String) (messages : List SessionMessage) : List (List Char) :=
  messages.flatMap fun m => m.parts.filterMap (partSkillContent s)

/-- One labelled token-count entry of a category (`CategoryEntry`). -/
structure CategoryEntry where
  label : String
  tokens : Nat
deriving DecidableEq

/-- `CategorySummary` from `types.ts`: the full sorted entry list plus the
truncated top view and the total. -/
structure CategorySummary where
  label : String
  totalTokens : Nat
  entries : List CategoryEntry
  allEntries : List CategoryEntry
deriving DecidableEq

/-- A collected text span to be tokenized (`CategoryEntrySource`). -/
structure CategoryEntrySource where
  label : String
  content : List Char

/-- The entry list of `buildCategory` before sorting: each source is
tokenized and kept only when its count is positive, in collection order. -/
def rawCategoryEntries (count : List Char → Nat) (sources : List CategoryEntrySource) :
    List CategoryEntry :=
  sources.filterMap fun s =>
    let tokens := count s.content
    if 0 < tokens then some { label := s.label, tokens := tokens } else none

/-- Descending order on `tokens`, the comparator `(a, b) => b.tokens - a.tokens`. -/
def entryDescRel (a b : CategoryEntry) : Prop := b.tokens ≤ a.tokens

instance : DecidableRel entryDescRel := fun a b => Nat.decLe b.tokens a.tokens

instance : IsTotal CategoryEntry entryDescRel := ⟨fun a b => Nat.le_total b.tokens a.tokens⟩

instance : IsTrans CategoryEntry entryDescRel := ⟨fun _ _ _ h h' => le_trans h' h⟩

/-- `TokenAnalysisEngine.buildCategory` from `analyzer.ts`, with the
per-entry tokenizer call abstracted as the pure `count`: tokenize, drop
zero-count entries, sort descending (stably), truncate the top view, and
total over the full list. -/
def buildCategory (count : List Char → Nat) (label : String)
    (sources : List CategoryEntrySource) (entryLimit : Nat) : CategorySummary :=
  let entries := (rawCategoryEntries count sources).insertionSort entryDescRel
  { label := label,
    totalTokens := (entries.map (·.tokens)).sum,
    entries := entries.take entryLimit,
    allEntries := entries }

/-- The five category summaries of an analysis. -/
structure CategorySet where
  system : CategorySummary
  user : CategorySummary
  assistant : CategorySummary
  tools : CategorySummary
  reasoning : CategorySummary
deriving DecidableEq

/-- `TokenAnalysis` from `types.ts`, restricted to the fields the engine
and cost calculator read or write. -/
structure TokenAnalysis where
  sessionID : String
  model : TokenModel
  categories : CategorySet
  totalTokens : Nat
  inputTokens : Nat
  outputTokens : Nat
  reasoningTokens : Nat
  cacheReadTokens : Nat
  cacheWriteTokens : Nat
  assistantMessageCount : Nat
  mostRecentInput : Nat
  mostRecentOutput : Nat
  mostRecentReasoning : Nat
  mostRecentCacheRead : Nat
  mostRecentCacheWrite : Nat
  sessionCost : ℚ
  mostRecentCost : ℚ
  allToolsCalled : List String
  toolCallCounts : List (String × Nat)

/-- The `assistants` list of `applyTelemetryAdjustments`: assistant
messages carrying a telemetry object or an explicit cost, reduced to
`(tokens, cost ?? 0)` pairs in transcript order. -/
def telemetryAssistants (messages : List SessionMessage) : List (Option TokenUsage × ℚ) :=
  (messages.filter fun m =>
      m.info.role == "assistant" && (m.info.tokens.isSome || m.info.cost.isSome)).map
    fun m => (m.info.tokens, m.info.cost.getD 0)

/-- The find-condition of `mostRecentWithUsage`: a telemetry object whose
five classes sum to a positive count. -/
def hasUsage (p : Option TokenUsage × ℚ) : Bool :=
  match p.1 with
  | some t => 0 < t.totalD
  | none => false

/-- `mostRecentWithUsage`: newest-to-oldest search for positive usage,
falling back to the last assistant entry (`?? assistants[assistants.length - 1]`). -/
def mostRecentWithUsage (assistants : List (Option TokenUsage × ℚ)) :
    Option (Option TokenUsage × ℚ) :=
  (assistants.reverse.find? hasUsage).orElse fun _ => assistants.reverse.head?

/-- `inferredSystemTokens`: `Math.max(0, (recentInput + recentCacheRead) -
(localUser + localTools))`, computed from the most-recent-usage snapshot. -/
def inferredSystemTokens (a : TokenAnalysis) (messages : List SessionMessage) : Nat :=
  let recent := mostRecentWithUsage (telemetryAssistants messages)
  let mostRecentInput := match recent with | some (t, _) => optInputD t | none => 0
  let mostRecentCacheRead := match recent with | some (t, _) => optCacheReadD t | none => 0
  (mostRecentInput + mostRecentCacheRead)
    - (a.categories.user.totalTokens + a.categories.tools.totalTokens)

/-- The synthetic replacement system category: one inferred entry serving
as both the top view and the full list, with the local total overridden. -/
def syntheticSystemCategory (c : CategorySummary) (inferred : Nat) : CategorySummary :=
  { c with totalTokens := inferred,
           entries := [{ label := "System (inferred from API)", tokens := inferred }],
           allEntries := [{ label := "System (inferred from API)", tokens := inferred }] }

/-- `TokenAnalysisEngine.applyTelemetryAdjustments` from `analyzer.ts`,
modelled as a pure update of the analysis record: session-total telemetry
sums, the most-recent-usage snapshot, the conditional synthetic system
category, and the recomputed grand total. -/
def applyTelemetryAdjustments (a : TokenAnalysis) (messages : List SessionMessage) :
    TokenAnalysis :=
  let assistants := telemetryAssistants messages
  let recent := mostRecentWithUsage assistants
  let mostRecentInput := match recent with | some (t, _) => optInputD t | none => 0
  let mostRecentOutput := match recent with | some (t, _) => optOutputD t | none => 0
  let mostRecentReasoning := match recent with | some (t, _) => optReasoningD t | none => 0
  let mostRecentCacheRead := match recent with | some (t, _) => optCacheReadD t | none => 0
  let mostRecentCacheWrite := match recent with | some (t, _) => optCacheWriteD t | none => 0
  let mostRecentCost := match recent with | some (_, c) => c | none => 0
  let inferred := inferredSystemTokens a messages
  let system' :=
    if 0 < inferred ∧ a.categories.system.totalTokens = 0 then
      syntheticSystemCategory a.categories.system inferred
    else a.categories.system
  { a with
    inputTokens := (assistants.map fun p => optInputD p.1).sum,
    outputTokens := (assistants.map fun p => optOutputD p.1).sum,
    reasoningTokens := (assistants.map fun p => optReasoningD p.1).sum,
    cacheReadTokens := (assistants.map fun p => optCacheReadD p.1).sum,
    cacheWriteTokens := (assistants.map fun p => optCacheWriteD p.1).sum,
    assistantMessageCount := assistants.length,
    sessionCost := (assistants.map (·.2)).sum,
    mostRecentCost := mostRecentCost,
    mostRecentInput := mostRecentInput,
    mostRecentOutput := mostRecentOutput,
    mostRecentReasoning := mostRecentReasoning,
    mostRecentCacheRead := mostRecentCacheRead,
    mostRecentCacheWrite := mostRecentCacheWrite,
    categories := { a.categories with system := system' },
    totalTokens :=
      system'.totalTokens + a.categories.user.totalTokens
        + a.categories.assistant.totalTokens + a.categories.tools.totalTokens
        + a.categories.reasoning.totalTokens }

/-- The `CategorySummary` invariant under an entry limit: the total is the
sum of the full entry list, the top view is its truncation, and the full
list is sorted descending by token count. -/
def categoryInvariant (entryLimit : Nat) (c : CategorySummary) : Prop :=
  c.totalTokens = (c.allEntries.map (·.tokens)).sum
    ∧ c.entries = c.allEntries.take entryLimit
    ∧ c.allEntries.Sorted entryDescRel

instance (entryLimit : Nat) (c : CategorySummary) :
    Decidable (categoryInvariant entryLimit c) := by
  unfold categoryInvariant List.Sorted
  infer_instance

/-- `CostEstimate` from `types.ts`. -/
structure CostEstimate where
  isSubscription : Bool
  apiSessionCost : ℚ
  apiMostRecentCost : ℚ
  estimatedSessionCost : ℚ
  estimatedInputCost : ℚ
  estimatedOutputCost : ℚ
  estimatedCacheReadCost : ℚ
  estimatedCacheWriteCost : ℚ
  pricePerMillionInput : ℚ
  pricePerMillionOutput : ℚ
  pricePerMillionCacheRead : ℚ
  pricePerMillionCacheWrite : ℚ
  inputTokens : Nat
  outputTokens : Nat
  reasoningTokens : Nat
  cacheReadTokens : Nat
  cacheWriteTokens : Nat

/-- `CostCalculator.calculateCost` from `cost.ts`: price the four token
classes and flag subscription billing when the session shows activity yet
the provider-reported cost is exactly 0. -/
def calculateCost (pricingData : PricingCatalog) (analysis : TokenAnalysis) : CostEstimate :=
  let pricing := getPricing pricingData analysis.model.name
  let hasActivity := 0 < analysis.assistantMessageCount
    ∧ (0 < analysis.inputTokens ∨ 0 < analysis.outputTokens)
  let isSubscription := decide (hasActivity ∧ analysis.sessionCost = 0)
  let estimatedInputCost := ((analysis.inputTokens : ℚ) / 1000000) * pricing.input
  let estimatedOutputCost :=
    (((analysis.outputTokens : ℚ) + (analysis.reasoningTokens : ℚ)) / 1000000) * pricing.output
  let estimatedCacheReadCost := ((analysis.cacheReadTokens : ℚ) / 1000000) * pricing.cacheRead
  let estimatedCacheWriteCost := ((analysis.cacheWriteTokens : ℚ) / 1000000) * pricing.cacheWrite
  { isSubscription := isSubscription,
    apiSessionCost := analysis.sessionCost,
    apiMostRecentCost := analysis.mostRecentCost,
    estimatedSessionCost :=
      estimatedInputCost + estimatedOutputCost + estimatedCacheReadCost + estimatedCacheWriteCost,
    estimatedInputCost := estimatedInputCost,
    estimatedOutputCost := estimatedOutputCost,
    estimatedCacheReadCost := estimatedCacheReadCost,
    estimatedCacheWriteCost := estimatedCacheWriteCost,
    pricePerMillionInput := pricing.input,
    pricePerMillionOutput := pricing.output,
    pricePerMillionCacheRead := pricing.cacheRead,
    pricePerMillionCacheWrite := pricing.cacheWrite,
    inputTokens := analysis.inputTokens,
    outputTokens := analysis.outputTokens,
    reasoningTokens := analysis.reasoningTokens,
    cacheReadTokens := analysis.cacheReadTokens,
    cacheWriteTokens := analysis.cacheWriteTokens }

/-- `SubagentSummary` from `types.ts`, restricted to the accounting
fields (the presentation-only `title`/`agentType` strings are omitted). -/
structure SubagentSummary where
  sessionID : String
  inputTokens : Nat
  outputTokens : Nat
  reasoningTokens : Nat
  cacheReadTokens : Nat
  cacheWriteTokens : Nat
  totalTokens : Nat
  apiCost : ℚ
  estimatedCost : ℚ
  assistantMessageCount : Nat
deriving DecidableEq

/-- `SubagentAnalysis` from `types.ts`: the flattened descendant list plus
running totals. -/
structure SubagentAnalysis where
  subagents : List SubagentSummary
  totalInputTokens : Nat
  totalOutputTokens : Nat
  totalReasoningTokens : Nat
  totalCacheReadTokens : Nat
  totalCacheWriteTokens : Nat
  totalTokens : Nat
  totalApiCost : ℚ
  totalEstimatedCost : ℚ
  totalApiCalls : Nat
deriving DecidableEq

/-- The all-zero result `analyzeChildSessions` starts from. -/
def emptySubagentAnalysis : SubagentAnalysis :=
  { subagents := [], totalInputTokens := 0, totalOutputTokens := 0,
    totalReasoningTokens := 0, totalCacheReadTokens := 0, totalCacheWriteTokens := 0,
    totalTokens := 0, totalApiCost := 0, totalEstimatedCost := 0, totalApiCalls := 0 }

/-- Accumulation of one partial result into another, in list order: the
field-by-field `+=` block of `analyzeChildSessions`. -/
def appendAnalysis (x y : SubagentAnalysis) : SubagentAnalysis :=
  { subagents := x.subagents ++ y.subagents,
    totalInputTokens := x.totalInputTokens + y.totalInputTokens,
    totalOutputTokens := x.totalOutputTokens + y.totalOutputTokens,
    totalReasoningTokens := x.totalReasoningTokens + y.totalReasoningTokens,
    totalCacheReadTokens := x.totalCacheReadTokens + y.totalCacheReadTokens,
    totalCacheWriteTokens := x.totalCacheWriteTokens + y.totalCacheWriteTokens,
    totalTokens := x.totalTokens + y.totalTokens,
    totalApiCost := x.totalApiCost + y.totalApiCost,
    totalEstimatedCost := x.totalEstimatedCost + y.totalEstimatedCost,
    totalApiCalls := x.totalApiCalls + y.totalApiCalls }

/-- The contribution of one child's own summary (`if (summary) { ... }`):
an absent summary contributes nothing. -/
def summaryAnalysis : Option SubagentSummary → SubagentAnalysis
  | none => emptySubagentAnalysis
  | some s =>
    { subagents := [s], totalInputTokens := s.inputTokens, totalOutputTokens := s.outputTokens,
      totalReasoningTokens := s.reasoningTokens, totalCacheReadTokens := s.cacheReadTokens,
      totalCacheWriteTokens := s.cacheWriteTokens, totalTokens := s.totalTokens,
      totalApiCost := s.apiCost, totalEstimatedCost := s.estimatedCost,
      totalApiCalls := s.assistantMessageCount }

/-- The assistant messages of a child transcript. -/
def assistantMsgs (messages : List SessionMessage) : List SessionMessage :=
  messages.filter fun m => m.info.role == "assistant"

/-- Per-class telemetry sums over a child's assistant messages. -/
def childInputTokens (messages : List SessionMessage) : Nat :=
  ((assistantMsgs messages).map fun m => optInputD m.info.tokens).sum

def childOutputTokens (messages : List SessionMessage) : Nat :=
  ((assistantMsgs messages).map fun m => optOutputD m.info.tokens).sum

def childReasoningTokens (messages : List SessionMessage) : Nat :=
  ((assistantMsgs messages).map fun m => optReasoningD m.info.tokens).sum

def childCacheReadTokens (messages : List SessionMessage) : Nat :=
  ((assistantMsgs messages).map fun m => optCacheReadD m.info.tokens).sum

def childCacheWriteTokens (messages : List SessionMessage) : Nat :=
  ((assistantMsgs messages).map fun m => optCacheWriteD m.info.tokens).sum

/-- `apiCost += Number(message.info.cost) || 0` over assistant messages. -/
def childApiCost (messages : List SessionMessage) : ℚ :=
  ((assistantMsgs messages).map fun m => m.info.cost.getD 0).sum

/-- The running `modelName` after the loop: the last assistant message
carrying a model id wins, defaulting to `"unknown"`. -/
def childModelName (messages : List SessionMessage) : List Char :=
  ((assistantMsgs messages).filterMap (·.info.modelID)).getLastD "unknown".toList

/-- The four-class estimated cost formula shared by `analyzeChildSession`
and `calculateCost`. -/
def estimateCostQ (p : ModelPricing) (i o r cr cw : Nat) : ℚ :=
  ((i : ℚ) / 1000000) * p.input + (((o : ℚ) + (r : ℚ)) / 1000000) * p.output
    + ((cr : ℚ) / 1000000) * p.cacheRead + ((cw : ℚ) / 1000000) * p.cacheWrite

/-- `SubagentAnalyzer.analyzeChildSession` from `subagent.ts`: a child with
no messages yields no summary; otherwise its assistant telemetry is summed
and priced. -/
def summarizeChildMessages (pricingData : PricingCatalog) (childID : String)
    (messages : List SessionMessage) : Option SubagentSummary :=
  if messages.isEmpty then none
  else
    let i := childInputTokens messages
    let o := childOutputTokens messages
    let r := childReasoningTokens messages
    let cr := childCacheReadTokens messages
    let cw := childCacheWriteTokens messages
    some
      { sessionID := childID,
        inputTokens := i, outputTokens := o, reasoningTokens := r,
        cacheReadTokens := cr, cacheWriteTokens := cw,
        totalTokens := i + o + r + cr + cw,
        apiCost := childApiCost messages,
        estimatedCost := estimateCostQ (getPricing pricingData (childModelName messages)) i o r cr cw,
        assistantMessageCount := (assistantMsgs messages).length }

/-- A session subtree: the unfolding of the host session store's
parent/child links, which is finite exactly when that store is acyclic. -/
inductive SessionTree where
  | node (id : String) (messages : List SessionMessage) (children : List SessionTree)

def SessionTree.id : SessionTree → String
  | .node i _ _ => i

def SessionTree.messages : SessionTree → List SessionMessage
  | .node _ m _ => m

def SessionTree.children : SessionTree → List SessionTree
  | .node _ _ c => c

/-- The child loop of `SubagentAnalyzer.analyzeChildSessions` over a list
of child subtrees: per child, its own summary is accumulated first, then
the recursive analysis of its children, then the remaining siblings. -/
def analyzeChildList (pricingData : PricingCatalog) : List SessionTree → SubagentAnalysis
  | [] => emptySubagentAnalysis
  | .node i msgs kids :: rest =>
    appendAnalysis
      (appendAnalysis (summaryAnalysis (summarizeChildMessages pricingData i msgs))
        (analyzeChildList pricingData kids))
      (analyzeChildList pricingData rest)

/-- `SubagentAnalyzer.analyzeChildSessions` on an acyclic store, applied to
the parent's unfolded subtree. -/
def analyzeChildSessions (pricingData : PricingCatalog) (parent : SessionTree) :
    SubagentAnalysis :=
  analyzeChildList pricingData parent.children

/-- Proper descendants of the nodes of a forest, in the traversal order of
`analyzeChildSessions` (each node before its own subtree, siblings after). -/
def descList : List SessionTree → List SessionTree
  | [] => []
  | .node i msgs kids :: rest => .node i msgs kids :: (descList kids ++ descList rest)

/-- Proper descendants of a parent node. -/
def SessionTree.descendants (t : SessionTree) : List SessionTree :=
  descList t.children

/-- Child-session descriptor returned by the host's children lookup. -/
structure ChildSession where
  id : String

/-- The host session store as the raw graph the code actually walks:
children and messages keyed by session id, with no acyclicity guarantee. -/
structure SessionStore where
  childrenOf : String → List ChildSession
  messagesOf : String → List SessionMessage

/-- One step of the child loop against the raw store, parameterized by the
recursive handler for a child's own children; `none` propagates fuel
exhaustion. -/
def goChildrenFuel (pricingData : PricingCatalog) (store : SessionStore)
    (recurse : String → Option SubagentAnalysis) :
    List ChildSession → Option SubagentAnalysis
  | [] => some emptySubagentAnalysis
  | c :: rest => do
    let nested ← recurse c.id
    let tail ← goChildrenFuel pricingData store recurse rest
    pure (appendAnalysis
      (appendAnalysis
        (summaryAnalysis (summarizeChildMessages pricingData c.id (store.messagesOf c.id)))
        nested)
      tail)

/-- `SubagentAnalyzer.analyzeChildSessions` against the raw store, with an
explicit recursion budget: the code recurses into every child
unconditionally (it keeps no visited-id set), so on a cyclic store no
finite budget completes the traversal.  `none` means the budget ran out. -/
def analyzeChildSessionsFuel (pricingData : PricingCatalog) (store : SessionStore) :
    Nat → String → Option SubagentAnalysis
  | 0, _ => none
  | fuel + 1, parentID =>
    goChildrenFuel pricingData store (analyzeChildSessionsFuel pricingData store fuel)
      (store.childrenOf parentID)

/-- A part of an exported message (`ExportedPart` in `types.ts`),
restricted to the fields the enabled-tools scan reads. -/
structure ExportedPart where
  type : String
  tool : Option String

/-- Header of an exported message (`ExportedMessageInfo`), restricted to
the fields the estimate path reads. -/
structure ExportedMessageInfo where
  role : String
  tokens : Option TokenUsage
  tools : Option (List (String × Bool))

/-- One message of a full session export. -/
structure ExportedMessage where
  info : ExportedMessageInfo
  parts : List ExportedPart

/-- A full session export (`ExportedSession`). -/
structure ExportedSession where
  messages : List ExportedMessage

/-- Generic `{tokens, identified}` bucket (`ContextComponent`). -/
structure ContextComponent where
  tokens : Nat
  identified : Bool
deriving DecidableEq

/-- The `toolDefinitions` bucket with its tool count. -/
structure ToolDefsComponent where
  tokens : Nat
  identified : Bool
  toolCount : Nat
deriving DecidableEq

/-- The `environmentContext` bucket with its detected components. -/
structure EnvComponent where
  tokens : Nat
  identified : Bool
  components : List String
deriving DecidableEq

/-- The `projectTree` bucket with its file count. -/
structure TreeComponent where
  tokens : Nat
  identified : Bool
  fileCount : Nat
deriving DecidableEq

/-- The `customInstructions` bucket with its source paths. -/
structure InstructionsComponent where
  tokens : Nat
  identified : Bool
  sources : List String
deriving DecidableEq

/-- `ContextBreakdown` from `types.ts`: five buckets plus the total. -/
structure ContextBreakdown where
  baseSystemPrompt : ContextComponent
  toolDefinitions : ToolDefsComponent
  environmentContext : EnvComponent
  projectTree : TreeComponent
  customInstructions : InstructionsComponent
  totalCachedContext : Nat
deriving DecidableEq

/-- The all-zero breakdown `analyzeContextBreakdown` initializes before
dispatching to the exact or estimate path. -/
def initialContextBreakdown : ContextBreakdown :=
  { baseSystemPrompt := { tokens := 0, identified := false },
    toolDefinitions := { tokens := 0, identified := false, toolCount := 0 },
    environmentContext := { tokens := 0, identified := false, components := [] },
    projectTree := { tokens := 0, identified := false, fileCount := 0 },
    customInstructions := { tokens := 0, identified := false, sources := [] },
    totalCachedContext := 0 }

/-- JS object insert-or-update: an existing key keeps its position and
takes the new value, a new key is appended. -/
def upsertTool (tools : List (String × Bool)) (name : String) (enabled : Bool) :
    List (String × Bool) :=
  if tools.any (fun kv => kv.1 == name) then
    tools.map fun kv => if kv.1 == name then (kv.1, enabled) else kv
  else tools ++ [(name, enabled)]

/-- `ContextAnalyzer.extractEnabledTools` from `context.ts`: union of the
`info.tools` maps of every message; when no message carries one, fall back
to the tool names observed in tool parts (non-empty names only). -/
def extractEnabledTools (exported : ExportedSession) : List (String × Bool) :=
  let fromInfo := exported.messages.foldl
    (fun acc m =>
      match m.info.tools with
      | some entries => entries.foldl (fun a kv => upsertTool a kv.1 kv.2) acc
      | none => acc)
    []
  if fromInfo.isEmpty then
    exported.messages.foldl
      (fun acc m =>
        m.parts.foldl
          (fun a p =>
            if p.type == "tool" then
              match p.tool with
              | some t => if t == "" then a else upsertTool a t true
              | none => a
            else a)
          acc)
      []
  else fromInfo

/-- The total-context probe of the estimate path: the cache-write value of
the first assistant message whose `tokens?.cache?.write` is truthy
(present and non-zero), else 0. -/
def firstAssistantCacheWrite (exported : ExportedSession) : Nat :=
  match exported.messages.find?
      (fun m => m.info.role == "assistant" && (optCacheWriteD m.info.tokens != 0)) with
  | some m => optCacheWriteD m.info.tokens
  | none => 0

/-- `ContextAnalyzer.estimateContextFromCacheTokens` from `context.ts`:
apportion the first cache-write total using the fixed constants (350 per
tool, 150 environment, 500 tree), attribute the floored remainder to the
base system prompt, and mark every touched bucket as estimated. -/
def estimateContextFromCacheTokens (exported : ExportedSession)
    (breakdown : ContextBreakdown) : ContextBreakdown :=
  let totalCachedTokens := firstAssistantCacheWrite exported
  let enabledToolCount := (extractEnabledTools exported).length
  if totalCachedTokens = 0 then breakdown
  else
    let estimatedToolTokens := enabledToolCount * 350
    { breakdown with
      toolDefinitions :=
        { tokens := estimatedToolTokens, identified := false, toolCount := enabledToolCount },
      environmentContext :=
        { tokens := 150, identified := false,
          components := ["working-dir", "platform", "git-status", "date"] },
      projectTree := { breakdown.projectTree with tokens := 500, identified := false },
      baseSystemPrompt :=
        { tokens := totalCachedTokens - (estimatedToolTokens + 150 + 500), identified := false },
      totalCachedContext := totalCachedTokens }

/-- Sum of the five bucket token values of a breakdown. -/
def bucketSum (b : ContextBreakdown) : Nat :=
  b.baseSystemPrompt.tokens + b.toolDefinitions.tokens + b.environmentContext.tokens
    + b.projectTree.tokens + b.customInstructions.tokens

/-- State of `TokenizerManager`'s tiktoken path: the per-model encoder
cache keys, whether the shared `tiktokenModule` promise slot has been
assigned, and ghost counters for `importFromVendor` starts and encoder
constructions (`encodingForModel`/`getEncoding`). -/
structure TiktokenState where
  tiktokenCache : List String
  moduleStarted : Bool
  moduleImports : Nat
  encoderLoads : Nat
deriving DecidableEq

/-- A fresh manager: empty cache, module promise unassigned. -/
def initialTiktokenState : TiktokenState :=
  { tiktokenCache := [], moduleStarted := false, moduleImports := 0, encoderLoads := 0 }

/-- The synchronous prefix of `loadTiktokenEncoder(model)` up to its first
`await`: the per-model cache is checked; on a miss, `loadTiktokenModule`
assigns the shared module promise synchronously (so `importFromVendor`
starts at most once) and the call suspends awaiting that promise.  Returns
`true` iff the call suspended. -/
def loadEncoderSyncPhase (model : String) (s : TiktokenState) : Bool × TiktokenState :=
  if s.tiktokenCache.contains model then (false, s)
  else
    (true,
      { s with moduleStarted := true,
               moduleImports := s.moduleImports + (if s.moduleStarted then 0 else 1) })

/-- The resumption of `loadTiktokenEncoder(model)` after the module
promise resolves: an encoder is built for the model and only then stored
in the per-model cache. -/
def loadEncoderResume (model : String) (s : TiktokenState) : TiktokenState :=
  { s with encoderLoads := s.encoderLoads + 1,
           tiktokenCache := s.tiktokenCache ++ [model] }

/-- A complete load call running without interleaving. -/
def runLoadSequential (model : String) (s : TiktokenState) : TiktokenState :=
  let (suspended, s') := loadEncoderSyncPhase model s
  if suspended then loadEncoderResume model s' else s'

/-- The JS event-loop execution of two concurrent `loadTiktokenEncoder`
calls whose synchronous prefixes both run before the shared module import
resolves; each suspended call then resumes in order. -/
def runTwoConcurrentLoads (m₁ m₂ : String) (s : TiktokenState) : TiktokenState :=
  let (susp₁, s₁) := loadEncoderSyncPhase m₁ s
  let (susp₂, s₂) := loadEncoderSyncPhase m₂ s₁
  let s₃ := if susp₁ then loadEncoderResume m₁ s₂ else s₂
  if susp₂ then loadEncoderResume m₂ s₃ else s₃

/-- A node's own token total: the five-class telemetry sum over its own
assistant messages. -/
def ownTokenTotal (t : SessionTree) : Nat :=
  childInputTokens t.messages + childOutputTokens t.messages + childReasoningTokens t.messages
    + childCacheReadTokens t.messages + childCacheWriteTokens t.messages

/-- A node's own provider-reported cost. -/
def ownApiCost (t : SessionTree) : ℚ :=
  childApiCost t.messages

/-- A node's own estimated metered cost under its resolved pricing. -/
def ownEstimatedCost (pricingData : PricingCatalog) (t : SessionTree) : ℚ :=
  estimateCostQ (getPricing pricingData (childModelName t.messages))
    (childInputTokens t.messages) (childOutputTokens t.messages)
    (childReasoningTokens t.messages) (childCacheReadTokens t.messages)
    (childCacheWriteTokens t.messages)

/-- A node's own assistant-turn count. -/
def ownApiCalls (t : SessionTree) : Nat :=
  (assistantMsgs t.messages).length

/-- The own contribution of one node as a partial analysis. -/
def ownAnalysis (pricingData : PricingCatalog) (t : SessionTree) : SubagentAnalysis :=
  summaryAnalysis (summarizeChildMessages pricingData t.id t.messages)

/-- Fold of partial analyses in list order. -/
def sumAnalyses (l : List SubagentAnalysis) : SubagentAnalysis :=
  l.foldr appendAnalysis emptySubagentAnalysis

/-- The skill-map lookup for a name (JS `skillMap.get(name)`, which is the
first — and, as the map keys are unique, only — entry with that name). -/
def findSkill (s : String) (acc : List SkillMapEntry) : Option SkillMapEntry :=
  acc.find? fun e => e.name == s

/-- The key list of the skill map. -/
def skillNames (acc : List SkillMapEntry) : List String :=
  acc.map (·.name)

/-- An assistant message whose telemetry is 100 input tokens at a reported
cost of $0.01 — the per-node usage of the spec's concrete scenario D. -/
def msg100 : SessionMessage :=
  { info := { role := "assistant", modelID := none,
              tokens := some { input := some 100, output := none, reasoning := none, cache := none },
              cost := some (1 / 100) },
    parts := [] }

/-- Scenario D session tree: A → B, A → C, B → D, each node owning one
`msg100`. -/
def treeD : SessionTree := .node "D" [msg100] []

def treeB : SessionTree := .node "B" [msg100] [treeD]

def treeC : SessionTree := .node "C" [msg100] []

def treeA : SessionTree := .node "A" [msg100] [treeB, treeC]

/-- A catalog holding only the mandatory `default` entry. -/
def defaultOnlyPricing : PricingCatalog :=
  [("default".toList, defaultFallbackPricing)]

/-- A cyclic session store: session `A` lists itself as its own child. -/
def selfLoopStore : SessionStore :=
  { childrenOf := fun id => if id = "A" then [{ id := "A" }] else [],
    messagesOf := fun _ => [] }

/-- Catalog entries used to separate first-match from longest-match. -/
def pricingClaude : ModelPricing :=
  { input := 1, output := 1, cacheWrite := 1, cacheRead := 1 }

def pricingClaudeOpus : ModelPricing :=
  { input := 2, output := 2, cacheWrite := 2, cacheRead := 2 }

/-- A catalog whose first prefix match for `claude-3-opus-…` (`claude`) is
shorter than a later, longer prefix key (`claude-3-opus`). -/
def cexPricingCatalog : PricingCatalog :=
  [("claude".toList, pricingClaude), ("claude-3-opus".toList, pricingClaudeOpus),
   ("default".toList, defaultFallbackPricing)]

/-- A namespaced model id matched by both catalog prefix keys. -/
def cexModelName : List Char := "anthropic/claude-3-opus-20240229".toList

/-- An exported message carrying only an `info.tools` map. -/
def exportToolsMsg (tools : List (String × Bool)) : ExportedMessage :=
  { info := { role := "user", tokens := none, tools := some tools }, parts := [] }

/-- An exported assistant message carrying only a cache-write count. -/
def exportCacheWriteMsg (n : Nat) : ExportedMessage :=
  { info := { role := "assistant",
              tokens := some { input := none, output := none, reasoning := none,
                               cache := some { read := none, write := some n } },
              tools := none },
    parts := [] }

/-- An export whose cached-context total (100) is smaller than the fixed
per-bucket estimates it is apportioned into (1 tool → 350 + 150 + 500). -/
def smallCacheExport : ExportedSession :=
  { messages := [exportToolsMsg [("bash", true)], exportCacheWriteMsg 100] }

/-- The spec's concrete scenario B: 10 enabled tools and a first
cache-write of 5000. -/
def scenarioBExport : ExportedSession :=
  { messages :=
      [exportToolsMsg
        [("bash", true), ("read", true), ("write", true), ("edit", true), ("grep", true),
         ("glob", true), ("task", true), ("webfetch", true), ("todowrite", true), ("patch", true)],
       exportCacheWriteMsg 5000] }

/-- A completed `skill` tool part with an extractable name and output. -/
def skillToolPart (name : String) (output : List Char) : SessionMessagePart :=
  .tool "skill"
    { status := "completed", inputName := some name, metadataName := none,
      titleName := none, output := some output }

/-- A transcript invoking skill `research` three times (the spec's
concrete scenario C shape); only the first output's token count may be
billed per call. -/
def skillMsgs : List SessionMessage :=
  [{ info := { role := "user", modelID := none, tokens := none, cost := none },
     parts := [skillToolPart "research" "abcd".toList] },
   { info := { role := "assistant", modelID := none, tokens := none, cost := none },
     parts := [skillToolPart "research" "abcd".toList, skillToolPart "research" "xy".toList] }]

/-- An empty category summary as `buildCategory` produces for no sources. -/
def emptyCategory (label : String) : CategorySummary :=
  { label := label, totalTokens := 0, entries := [], allEntries := [] }

/-- The resolver's `approx` fallback token model. -/
def approxModel : TokenModel :=
  { name := "approx".toList, spec := .approx }

/-- A concrete all-zero analysis over empty categories. -/
def witnessAnalysis : TokenAnalysis :=
  { sessionID := "s", model := approxModel,
    categories :=
      { system := emptyCategory "system", user := emptyCategory "user",
        assistant := emptyCategory "assistant", tools := emptyCategory "tools",
        reasoning := emptyCategory "reasoning" },
    totalTokens := 0, inputTokens := 0, outputTokens := 0, reasoningTokens := 0,
    cacheReadTokens := 0, cacheWriteTokens := 0, assistantMessageCount := 0,
    mostRecentInput := 0, mostRecentOutput := 0, mostRecentReasoning := 0,
    mostRecentCacheRead := 0, mostRecentCacheWrite := 0,
    sessionCost := 0, mostRecentCost := 0, allToolsCalled := [], toolCallCounts := [] }

/-- C4 (counterexample): a whitespace-only string is caught by the blank
check first, so `countTokens` under the `approx` spec returns 0 and not
`ceil(length / 4)`: four spaces give 0, while the formula gives 1. -/
theorem countTokens_whitespace_cex :
    countTokens (fun _ _ => 0) "    ".toList approxModel = 0
      ∧ approximateTokenCount "    ".toList = 1
      ∧ (0 : Nat) ≠ 1 := by
  refine ⟨by decide, by decide, by decide⟩

/-- C4 (amended): blank content returns 0 for every tokenizer spec and
every backend; content with at least one non-whitespace character returns
exactly `ceil(length / 4)` under the `approx` spec; and among such
non-blank strings the count is monotone non-decreasing in length. -/
theorem countTokens_approx_amended (backend : TokenizerSpec → List Char → Nat)
    (m : TokenModel) (s t : List Char) :
    (jsIsBlank s = true → countTokens backend s m = 0)
      ∧ (jsIsBlank s = false → countTokens backend s approxModel = approximateTokenCount s)
      ∧ (jsIsBlank s = false → jsIsBlank t = false → s.length ≤ t.length →
          countTokens backend s approxModel ≤ countTokens backend t approxModel) := by
  refine ⟨fun h => by simp [countTokens, h],
    fun h => by simp [countTokens, h, approxModel],
    fun hs ht hl => ?_⟩
  simp only [countTokens, hs, ht, approxModel, Bool.false_eq_true, if_false,
    approximateTokenCount]
  exact Nat.div_le_div_right (Nat.add_le_add_right hl 3)

/-- C4 (witness): the amended statement evaluated at concrete strings. -/
theorem countTokens_approx_amended_witness :
    countTokens (fun _ _ => 0) "   ".toList { name := "x".toList, spec := .tiktoken "gpt-4" } = 0
      ∧ countTokens (fun _ _ => 0) "ab".toList approxModel = approximateTokenCount "ab".toList
      ∧ countTokens (fun _ _ => 0) "ab".toList approxModel
          ≤ countTokens (fun _ _ => 0) "abcde".toList approxModel :=
  ⟨(countTokens_approx_amended (fun _ _ => 0) { name := "x".toList, spec := .tiktoken "gpt-4" }
      "   ".toList "x".toList).1 (by decide),
   (countTokens_approx_amended (fun _ _ => 0) approxModel "ab".toList "x".toList).2.1 (by decide),
   (countTokens_approx_amended (fun _ _ => 0) approxModel "ab".toList "abcde".toList).2.2
     (by decide) (by decide) (by decide)⟩

/-- C7: `calculateCost` flags subscription billing exactly when the
analysis shows an assistant turn, a positive input or output count, and a
provider-reported session cost of exactly 0. -/
theorem calculateCost_subscription_iff (pricingData : PricingCatalog)
    (analysis : TokenAnalysis) :
    (calculateCost pricingData analysis).isSubscription = true
      ↔ (0 < analysis.assistantMessageCount
          ∧ (0 < analysis.inputTokens ∨ 0 < analysis.outputTokens)
          ∧ analysis.sessionCost = 0) := by
  simp [calculateCost, and_assoc]

/-- C9 (code evaluated at the failing schedule): two concurrent first-time
loads for the same key both miss the per-model cache before either
completes, so two encoders are built for one key — the shared module
import, by contrast, is coalesced to one — while sequential repetition
builds only one. -/
theorem concurrent_encoder_loads_duplicate :
    (runTwoConcurrentLoads "gpt-4" "gpt-4" initialTiktokenState).encoderLoads = 2
      ∧ (runTwoConcurrentLoads "gpt-4" "gpt-4" initialTiktokenState).moduleImports = 1
      ∧ (runLoadSequential "gpt-4" (runLoadSequential "gpt-4" initialTiktokenState)).encoderLoads = 1 := by
  decide

/-- C8 (code evaluated at the failing input): `analyzeChildSessions` keeps
no visited-id set, so on a store where session `A` is its own child the
recursion never completes — it exhausts every finite recursion budget. -/
theorem analyzeChildSessionsFuel_cycle_diverges (fuel : Nat) :
    analyzeChildSessionsFuel defaultOnlyPricing selfLoopStore fuel "A" = none := by
  induction fuel with
  | zero => rfl
  | succ n ih =>
    have hc : selfLoopStore.childrenOf "A" = [{ id := "A" }] := rfl
    simp [analyzeChildSessionsFuel, hc, goChildrenFuel, ih]

/-- C10: telemetry reconciliation never touches the user, assistant,
tools, or reasoning categories nor the identification fields; the system
category is replaced (by the single synthetic inferred entry) exactly when
its locally computed total is 0 and the inferred value is positive; and
the grand total is recomputed as the sum of the five category totals. -/
theorem applyTelemetryAdjustments_frame (a : TokenAnalysis) (messages : List SessionMessage) :
    (applyTelemetryAdjustments a messages).categories.user = a.categories.user
      ∧ (applyTelemetryAdjustments a messages).categories.assistant = a.categories.assistant
      ∧ (applyTelemetryAdjustments a messages).categories.tools = a.categories.tools
      ∧ (applyTelemetryAdjustments a messages).categories.reasoning = a.categories.reasoning
      ∧ (applyTelemetryAdjustments a messages).sessionID = a.sessionID
      ∧ (applyTelemetryAdjustments a messages).model = a.model
      ∧ (applyTelemetryAdjustments a messages).allToolsCalled = a.allToolsCalled
      ∧ (applyTelemetryAdjustments a messages).toolCallCounts = a.toolCallCounts
      ∧ (applyTelemetryAdjustments a messages).categories.system =
          (if 0 < inferredSystemTokens a messages ∧ a.categories.system.totalTokens = 0
           then syntheticSystemCategory a.categories.system (inferredSystemTokens a messages)
           else a.categories.system)
      ∧ (applyTelemetryAdjustments a messages).totalTokens =
          (applyTelemetryAdjustments a messages).categories.system.totalTokens
            + a.categories.user.totalTokens + a.categories.assistant.totalTokens
            + a.categories.tools.totalTokens + a.categories.reasoning.totalTokens :=
  ⟨rfl, rfl, rfl, rfl, rfl, rfl, rfl, rfl, rfl, rfl⟩

/-- C1 (counterexample): with a first cache-write of 100 and one enabled
tool the fixed estimates (350 + 150 + 500) exceed the total and the base
remainder floors at 0, so the five buckets sum to 1000 while
`totalCachedContext` is 100 — the conservation clause fails. -/
theorem estimateContext_conservation_cex :
    0 < firstAssistantCacheWrite smallCacheExport
      ∧ bucketSum (estimateContextFromCacheTokens smallCacheExport initialContextBreakdown) = 1000
      ∧ (estimateContextFromCacheTokens smallCacheExport initialContextBreakdown).totalCachedContext = 100
      ∧ (1000 : Nat) ≠ 100 := by
  refine ⟨by decide, by decide, by decide, by decide⟩

/-- C1 (amended): on the estimate path the buckets are exactly
`toolCount * 350`, 150, 500, 0 and the floored remainder, every bucket is
marked unidentified, and `totalCachedContext` is the first cache-write
value; the five buckets sum to `totalCachedContext` whenever the total is
at least `toolCount * 350 + 150 + 500` (in general they sum to the maximum
of the two). -/
theorem estimateContext_buckets (exported : ExportedSession)
    (h : 0 < firstAssistantCacheWrite exported) :
    estimateContextFromCacheTokens exported initialContextBreakdown =
        { baseSystemPrompt :=
            { tokens := firstAssistantCacheWrite exported
                - ((extractEnabledTools exported).length * 350 + 150 + 500),
              identified := false },
          toolDefinitions :=
            { tokens := (extractEnabledTools exported).length * 350, identified := false,
              toolCount := (extractEnabledTools exported).length },
          environmentContext :=
            { tokens := 150, identified := false,
              components := ["working-dir", "platform", "git-status", "date"] },
          projectTree := { tokens := 500, identified := false, fileCount := 0 },
          customInstructions := { tokens := 0, identified := false, sources := [] },
          totalCachedContext := firstAssistantCacheWrite exported }
      ∧ ((extractEnabledTools exported).length * 350 + 150 + 500
            ≤ firstAssistantCacheWrite exported →
          bucketSum (estimateContextFromCacheTokens exported initialContextBreakdown)
            = (estimateContextFromCacheTokens exported initialContextBreakdown).totalCachedContext)
      ∧ bucketSum (estimateContextFromCacheTokens exported initialContextBreakdown)
          = max (firstAssistantCacheWrite exported)
              ((extractEnabledTools exported).length * 350 + 150 + 500) := by
  have hne : firstAssistantCacheWrite exported ≠ 0 := Nat.pos_iff_ne_zero.mp h
  have key : estimateContextFromCacheTokens exported initialContextBreakdown =
      { baseSystemPrompt :=
          { tokens := firstAssistantCacheWrite exported
              - ((extractEnabledTools exported).length * 350 + 150 + 500),
            identified := false },
        toolDefinitions :=
          { tokens := (extractEnabledTools exported).length * 350, identified := false,
            toolCount := (extractEnabledTools exported).length },
        environmentContext :=
          { tokens := 150, identified := false,
            components := ["working-dir", "platform", "git-status", "date"] },
        projectTree := { tokens := 500, identified := false, fileCount := 0 },
        customInstructions := { tokens := 0, identified := false, sources := [] },
        totalCachedContext := firstAssistantCacheWrite exported } := by
    simp [estimateContextFromCacheTokens, hne, initialContextBreakdown]
  refine ⟨key, ?_, ?_⟩
  · intro hle
    rw [key]
    simp only [bucketSum]
    omega
  · rw [key]
    simp only [bucketSum]
    omega

/-- C1 (witness): the spec's scenario B — 10 tools and a 5000-token first
cache-write — satisfies the conservation hypothesis and the bucket sum
equals the total. -/
theorem estimateContext_buckets_witness :
    0 < firstAssistantCacheWrite scenarioBExport
      ∧ (extractEnabledTools scenarioBExport).length * 350 + 150 + 500
          ≤ firstAssistantCacheWrite scenarioBExport
      ∧ bucketSum (estimateContextFromCacheTokens scenarioBExport initialContextBreakdown)
          = (estimateContextFromCacheTokens scenarioBExport initialContextBreakdown).totalCachedContext :=
  ⟨by decide, by decide,
   (estimateContext_buckets scenarioBExport (by decide)).2.1 (by decide)⟩

/-- C2 (counterexample): for the catalog with keys `claude`,
`claude-3-opus`, `default` (in that order) and the model
`anthropic/claude-3-opus-20240229`, `getPricing` returns the `claude`
entry — the first prefix match in catalog order — not the entry with the
longest matching prefix `claude-3-opus` the claim requires. -/
theorem getPricing_not_longest_cex :
    getPricing cexPricingCatalog cexModelName = pricingClaude
      ∧ getPricingByLongest cexPricingCatalog cexModelName = pricingClaudeOpus
      ∧ pricingClaude ≠ pricingClaudeOpus := by
  refine ⟨rfl, rfl, fun hcontra => ?_⟩
  have h1 : (1 : ℚ) = 2 := congrArg ModelPricing.input hcontra
  norm_num at h1

/-- Auxiliary: `find?` returns the first element satisfying the predicate
when everything before it fails. -/
theorem find?_first_true {α : Type} (p : α → Bool) :
    ∀ (l₁ : List α) (x : α) (l₂ : List α),
      (∀ y ∈ l₁, p y = false) → p x = true → (l₁ ++ x :: l₂).find? p = some x
  | [], x, l₂, _, hx => by simp [List.find?_cons_of_pos _ hx]
  | y :: ys, x, l₂, hall, hx => by
    have hy : p y = false := hall y (by simp)
    rw [List.cons_append, List.find?_cons_of_neg _ (by simp [hy])]
    exact find?_first_true p ys x l₂ (fun z hz => hall z (by simp [hz])) hx

/-- C2 (amended): when there is no exact catalog match, `getPricing`
returns the value of the first key in catalog order whose lower-cased form
is a prefix of the lower-cased normalized model name (not the longest
such key). -/
theorem getPricing_first_match (cat₁ cat₂ : PricingCatalog)
    (modelName key : List Char) (p : ModelPricing)
    (hnone : lookupKey (cat₁ ++ (key, p) :: cat₂) (normalizeModelName modelName) = none)
    (hbefore : ∀ kv ∈ cat₁,
      (jsToLower kv.1).isPrefixOf (jsToLower (normalizeModelName modelName)) = false)
    (hkey : (jsToLower key).isPrefixOf (jsToLower (normalizeModelName modelName)) = true) :
    getPricing (cat₁ ++ (key, p) :: cat₂) modelName = p := by
  have hfind : (cat₁ ++ (key, p) :: cat₂).find?
      (fun kv => (jsToLower kv.1).isPrefixOf (jsToLower (normalizeModelName modelName)))
        = some (key, p) :=
    find?_first_true _ cat₁ (key, p) cat₂ hbefore hkey
  simp only [getPricing, hnone, hfind]

/-- C2 (witness): the amended lookup evaluated on the concrete catalog:
the first matching key `claude` wins. -/
theorem getPricing_first_match_witness :
    lookupKey cexPricingCatalog (normalizeModelName cexModelName) = none
      ∧ (jsToLower "claude".toList).isPrefixOf (jsToLower (normalizeModelName cexModelName)) = true
      ∧ getPricing cexPricingCatalog cexModelName = pricingClaude :=
  ⟨by decide, by decide,
   getPricing_first_match []
     [("claude-3-opus".toList, pricingClaudeOpus), ("default".toList, defaultFallbackPricing)]
     cexModelName "claude".toList pricingClaude (by decide) (by simp) (by decide)⟩

/-- C6: a category built by `buildCategory` satisfies the invariant — the
total is the sum of the full entry list, the top view is its truncation at
the entry limit, and the full list is the stable descending sort of the
collected entries; and `applyTelemetryAdjustments` preserves the invariant
of all five categories (for the positive entry limits the engine is
invoked with). -/
theorem category_summaries_invariant (count : List Char → Nat) (label : String)
    (sources : List CategoryEntrySource) (entryLimit : Nat)
    (a : TokenAnalysis) (messages : List SessionMessage)
    (hlim : 1 ≤ entryLimit)
    (hsys : categoryInvariant entryLimit a.categories.system)
    (huser : categoryInvariant entryLimit a.categories.user)
    (hassistant : categoryInvariant entryLimit a.categories.assistant)
    (htools : categoryInvariant entryLimit a.categories.tools)
    (hreasoning : categoryInvariant entryLimit a.categories.reasoning) :
    (categoryInvariant entryLimit (buildCategory count label sources entryLimit)
      ∧ (buildCategory count label sources entryLimit).allEntries
          = (rawCategoryEntries count sources).insertionSort entryDescRel)
      ∧ categoryInvariant entryLimit (applyTelemetryAdjustments a messages).categories.system
      ∧ categoryInvariant entryLimit (applyTelemetryAdjustments a messages).categories.user
      ∧ categoryInvariant entryLimit (applyTelemetryAdjustments a messages).categories.assistant
      ∧ categoryInvariant entryLimit (applyTelemetryAdjustments a messages).categories.tools
      ∧ categoryInvariant entryLimit (applyTelemetryAdjustments a messages).categories.reasoning := by
  refine ⟨⟨⟨rfl, rfl, List.sorted_insertionSort entryDescRel _⟩, rfl⟩,
    ?_, huser, hassistant, htools, hreasoning⟩
  by_cases hcond : 0 < inferredSystemTokens a messages ∧ a.categories.system.totalTokens = 0
  · have hsys' : (applyTelemetryAdjustments a messages).categories.system
        = syntheticSystemCategory a.categories.system (inferredSystemTokens a messages) := by
      simp [applyTelemetryAdjustments, hcond]
    rw [hsys']
    refine ⟨by simp [syntheticSystemCategory], ?_, by simp [syntheticSystemCategory]⟩
    simp only [syntheticSystemCategory]
    rw [List.take_of_length_le (by simpa using hlim)]
  · have hsys' : (applyTelemetryAdjustments a messages).categories.system
        = a.categories.system := by
      simp [applyTelemetryAdjustments, hcond]
    rw [hsys']
    exact hsys

/-- C6 (witness): the invariant hypotheses and the preserved system
invariant at a concrete analysis and transcript. -/
theorem category_summaries_invariant_witness :
    (1 ≤ 1
      ∧ categoryInvariant 1 witnessAnalysis.categories.system
      ∧ categoryInvariant 1 witnessAnalysis.categories.user
      ∧ categoryInvariant 1 witnessAnalysis.categories.assistant
      ∧ categoryInvariant 1 witnessAnalysis.categories.tools
      ∧ categoryInvariant 1 witnessAnalysis.categories.reasoning)
      ∧ categoryInvariant 1 (applyTelemetryAdjustments witnessAnalysis [msg100]).categories.system :=
  ⟨⟨by decide, by decide, by decide, by decide, by decide, by decide⟩,
   (category_summaries_invariant (fun _ => 0) "x" [] 1 witnessAnalysis [msg100]
      (by decide) (by decide) (by decide) (by decide) (by decide) (by decide)).2.1⟩

/-- Appending the empty partial analysis on the left is the identity. -/
theorem appendAnalysis_empty_left (x : SubagentAnalysis) :
    appendAnalysis emptySubagentAnalysis x = x := by
  cases x
  simp [appendAnalysis, emptySubagentAnalysis]

/-- Accumulation of partial analyses is associative. -/
theorem appendAnalysis_assoc (x y z : SubagentAnalysis) :
    appendAnalysis (appendAnalysis x y) z = appendAnalysis x (appendAnalysis y z) := by
  simp [appendAnalysis, add_assoc]

/-- Folding a cons. -/
theorem sumAnalyses_cons (x : SubagentAnalysis) (l : List SubagentAnalysis) :
    sumAnalyses (x :: l) = appendAnalysis x (sumAnalyses l) := rfl

/-- Folding distributes over list append. -/
theorem sumAnalyses_append (l₁ l₂ : List SubagentAnalysis) :
    sumAnalyses (l₁ ++ l₂) = appendAnalysis (sumAnalyses l₁) (sumAnalyses l₂) := by
  induction l₁ with
  | nil => simp [sumAnalyses, appendAnalysis_empty_left]
  | cons x t ih =>
    rw [List.cons_append, sumAnalyses_cons, sumAnalyses_cons, ih, appendAnalysis_assoc]

/-- The traversal of a child forest accumulates exactly the own
contributions of the descendants in traversal order. -/
theorem analyzeChildList_eq (pricingData : PricingCatalog) :
    ∀ l : List SessionTree,
      analyzeChildList pricingData l = sumAnalyses ((descList l).map (ownAnalysis pricingData))
  | [] => by simp [analyzeChildList, descList, sumAnalyses]
  | .node i msgs kids :: rest => by
    rw [analyzeChildList, descList,
      analyzeChildList_eq pricingData kids, analyzeChildList_eq pricingData rest,
      List.map_cons, List.map_append, sumAnalyses_cons, sumAnalyses_append,
      ← appendAnalysis_assoc]
    rfl

/-- Field-wise description of a fold of partial analyses. -/
theorem sumAnalyses_fields (l : List SubagentAnalysis) :
    (sumAnalyses l).subagents = l.flatMap (·.subagents)
      ∧ (sumAnalyses l).totalInputTokens = (l.map (·.totalInputTokens)).sum
      ∧ (sumAnalyses l).totalOutputTokens = (l.map (·.totalOutputTokens)).sum
      ∧ (sumAnalyses l).totalReasoningTokens = (l.map (·.totalReasoningTokens)).sum
      ∧ (sumAnalyses l).totalCacheReadTokens = (l.map (·.totalCacheReadTokens)).sum
      ∧ (sumAnalyses l).totalCacheWriteTokens = (l.map (·.totalCacheWriteTokens)).sum
      ∧ (sumAnalyses l).totalTokens = (l.map (·.totalTokens)).sum
      ∧ (sumAnalyses l).totalApiCost = (l.map (·.totalApiCost)).sum
      ∧ (sumAnalyses l).totalEstimatedCost = (l.map (·.totalEstimatedCost)).sum
      ∧ (sumAnalyses l).totalApiCalls = (l.map (·.totalApiCalls)).sum := by
  induction l with
  | nil => simp [sumAnalyses, emptySubagentAnalysis]
  | cons x t ih =>
    obtain ⟨h1, h2, h3, h4, h5, h6, h7, h8, h9, h10⟩ := ih
    rw [sumAnalyses_cons]
    simp [appendAnalysis, h1, h2, h3, h4, h5, h6, h7, h8, h9, h10]

/-- Own contribution of one node, field by field, against the direct
per-node formulas. -/
theorem ownAnalysis_fields (pricingData : PricingCatalog) (t : SessionTree) :
    (ownAnalysis pricingData t).subagents
        = (summarizeChildMessages pricingData t.id t.messages).toList
      ∧ (ownAnalysis pricingData t).totalInputTokens = childInputTokens t.messages
      ∧ (ownAnalysis pricingData t).totalOutputTokens = childOutputTokens t.messages
      ∧ (ownAnalysis pricingData t).totalReasoningTokens = childReasoningTokens t.messages
      ∧ (ownAnalysis pricingData t).totalCacheReadTokens = childCacheReadTokens t.messages
      ∧ (ownAnalysis pricingData t).totalCacheWriteTokens = childCacheWriteTokens t.messages
      ∧ (ownAnalysis pricingData t).totalTokens = ownTokenTotal t
      ∧ (ownAnalysis pricingData t).totalApiCost = ownApiCost t
      ∧ (ownAnalysis pricingData t).totalEstimatedCost = ownEstimatedCost pricingData t
      ∧ (ownAnalysis pricingData t).totalApiCalls = ownApiCalls t := by
  unfold ownAnalysis summarizeChildMessages
  by_cases hm : t.messages.isEmpty
  · have hnil : t.messages = [] := List.isEmpty_iff.mp hm
    simp [hm, summaryAnalysis, emptySubagentAnalysis, hnil, childInputTokens,
      childOutputTokens, childReasoningTokens, childCacheReadTokens, childCacheWriteTokens,
      ownTokenTotal, ownApiCost, ownEstimatedCost, ownApiCalls, childApiCost,
      assistantMsgs, estimateCostQ]
  · simp [hm, summaryAnalysis, ownTokenTotal, ownApiCost, ownEstimatedCost, ownApiCalls]

/-- Flattening the own subagent lists of a forest yields one summary per
node with a non-empty transcript. -/
theorem flatMap_own_subagents (pricingData : PricingCatalog) (l : List SessionTree) :
    (l.map (ownAnalysis pricingData)).flatMap (·.subagents)
      = l.filterMap (fun d => summarizeChildMessages pricingData d.id d.messages) := by
  induction l with
  | nil => rfl
  | cons t rest ih =>
    rcases hs : summarizeChildMessages pricingData t.id t.messages with _ | s <;>
      simp [ownAnalysis, hs, summaryAnalysis, emptySubagentAnalysis, ih]

/-- General aggregation of the subagent traversal: every total is the sum
of the proper descendants' own values and the flattened list holds one
summary per non-empty descendant. -/
theorem analyzeChildSessions_fields (pricingData : PricingCatalog) (parent : SessionTree) :
    (analyzeChildSessions pricingData parent).subagents
        = parent.descendants.filterMap
            (fun d => summarizeChildMessages pricingData d.id d.messages)
      ∧ (analyzeChildSessions pricingData parent).totalInputTokens
          = (parent.descendants.map fun d => childInputTokens d.messages).sum
      ∧ (analyzeChildSessions pricingData parent).totalOutputTokens
          = (parent.descendants.map fun d => childOutputTokens d.messages).sum
      ∧ (analyzeChildSessions pricingData parent).totalReasoningTokens
          = (parent.descendants.map fun d => childReasoningTokens d.messages).sum
      ∧ (analyzeChildSessions pricingData parent).totalCacheReadTokens
          = (parent.descendants.map fun d => childCacheReadTokens d.messages).sum
      ∧ (analyzeChildSessions pricingData parent).totalCacheWriteTokens
          = (parent.descendants.map fun d => childCacheWriteTokens d.messages).sum
      ∧ (analyzeChildSessions pricingData parent).totalTokens
          = (parent.descendants.map ownTokenTotal).sum
      ∧ (analyzeChildSessions pricingData parent).totalApiCost
          = (parent.descendants.map ownApiCost).sum
      ∧ (analyzeChildSessions pricingData parent).totalEstimatedCost
          = (parent.descendants.map (ownEstimatedCost pricingData)).sum
      ∧ (analyzeChildSessions pricingData parent).totalApiCalls
          = (parent.descendants.map ownApiCalls).sum := by
  have hmain : analyzeChildSessions pricingData parent
      = sumAnalyses ((descList parent.children).map (ownAnalysis pricingData)) :=
    analyzeChildList_eq pricingData parent.children
  obtain ⟨h1, h2, h3, h4, h5, h6, h7, h8, h9, h10⟩ :=
    sumAnalyses_fields ((descList parent.children).map (ownAnalysis pricingData))
  unfold SessionTree.descendants
  rw [hmain, h1, h2, h3, h4, h5, h6, h7, h8, h9, h10, flatMap_own_subagents]
  refine ⟨rfl, ?_, ?_, ?_, ?_, ?_, ?_, ?_, ?_, ?_⟩ <;>
    rw [List.map_map] <;>
    exact congrArg List.sum (List.map_congr_left fun d _ => by
      have h := ownAnalysis_fields pricingData d
      simp only [Function.comp]
      tauto)

/-- Scenario D descendants of `A`, in traversal order. -/
theorem treeA_descendants : treeA.descendants = [treeB, treeD, treeC] := by
  simp [SessionTree.descendants, SessionTree.children, treeA, treeB, treeC, treeD, descList]

/-- Scenario D aggregate token total: 300, from B, C, D only. -/
theorem treeA_totalTokens :
    (analyzeChildSessions defaultOnlyPricing treeA).totalTokens = 300 := by
  rw [(analyzeChildSessions_fields defaultOnlyPricing treeA).2.2.2.2.2.2.1, treeA_descendants]
  decide

/-- Scenario D aggregate provider cost: $0.03, from B, C, D only. -/
theorem treeA_totalApiCost :
    (analyzeChildSessions defaultOnlyPricing treeA).totalApiCost = 3 / 100 := by
  rw [(analyzeChildSessions_fields defaultOnlyPricing treeA).2.2.2.2.2.2.2.1, treeA_descendants]
  simp [ownApiCost, childApiCost, assistantMsgs, treeB, treeC, treeD, msg100,
    SessionTree.messages]
  norm_num

/-- Scenario D flattened list length: one summary per descendant. -/
theorem treeA_subagents_length :
    (analyzeChildSessions defaultOnlyPricing treeA).subagents.length = 3 := by
  rw [(analyzeChildSessions_fields defaultOnlyPricing treeA).1, treeA_descendants]
  simp [summarizeChildMessages, treeB, treeC, treeD, SessionTree.messages, SessionTree.id,
    msg100]

/-- C3 (counterexample): on the claim's own scenario D tree — A → B,
A → C, B → D, each node owning 100 tokens at $0.01 — the traversal
aggregates only the proper descendants B, C, D: 300 tokens and $0.03, not
the claimed 400 tokens and $0.04 (which would require the root A's own
usage, never visited by `analyzeChildSessions`). -/
theorem analyzeChildSessions_root_excluded_cex :
    (analyzeChildSessions defaultOnlyPricing treeA).totalTokens = 300
      ∧ ownTokenTotal treeA + (treeA.descendants.map ownTokenTotal).sum = 400
      ∧ (300 : Nat) ≠ 400
      ∧ (analyzeChildSessions defaultOnlyPricing treeA).totalApiCost = 3 / 100
      ∧ (3 / 100 : ℚ) ≠ 4 / 100 := by
  refine ⟨treeA_totalTokens, ?_, by decide, treeA_totalApiCost, by norm_num⟩
  rw [treeA_descendants]
  decide

/-- C3 (amended): for every session tree, `analyzeChildSessions` on the
root returns totals (per token class, API and estimated cost, assistant
turns) equal to the sums of the proper descendants' own values — the
root's own usage is excluded — and a flattened list with one summary per
non-empty descendant at any depth; on the scenario D tree this gives 300
tokens, $0.03, and 3 summaries. -/
theorem analyzeChildSessions_descendant_totals (pricingData : PricingCatalog)
    (parent : SessionTree) :
    ((analyzeChildSessions pricingData parent).subagents
        = parent.descendants.filterMap
            (fun d => summarizeChildMessages pricingData d.id d.messages)
      ∧ (analyzeChildSessions pricingData parent).totalInputTokens
          = (parent.descendants.map fun d => childInputTokens d.messages).sum
      ∧ (analyzeChildSessions pricingData parent).totalOutputTokens
          = (parent.descendants.map fun d => childOutputTokens d.messages).sum
      ∧ (analyzeChildSessions pricingData parent).totalReasoningTokens
          = (parent.descendants.map fun d => childReasoningTokens d.messages).sum
      ∧ (analyzeChildSessions pricingData parent).totalCacheReadTokens
          = (parent.descendants.map fun d => childCacheReadTokens d.messages).sum
      ∧ (analyzeChildSessions pricingData parent).totalCacheWriteTokens
          = (parent.descendants.map fun d => childCacheWriteTokens d.messages).sum
      ∧ (analyzeChildSessions pricingData parent).totalTokens
          = (parent.descendants.map ownTokenTotal).sum
      ∧ (analyzeChildSessions pricingData parent).totalApiCost
          = (parent.descendants.map ownApiCost).sum
      ∧ (analyzeChildSessions pricingData parent).totalEstimatedCost
          = (parent.descendants.map (ownEstimatedCost pricingData)).sum
      ∧ (analyzeChildSessions pricingData parent).totalApiCalls
          = (parent.descendants.map ownApiCalls).sum)
      ∧ (analyzeChildSessions defaultOnlyPricing treeA).totalTokens = 300
      ∧ (analyzeChildSessions defaultOnlyPricing treeA).totalApiCost = 3 / 100
      ∧ (analyzeChildSessions defaultOnlyPricing treeA).subagents.length = 3 :=
  ⟨analyzeChildSessions_fields pricingData parent,
   treeA_totalTokens, treeA_totalApiCost, treeA_subagents_length⟩

/-- Bumping a call count never changes the key list. -/
theorem skillNames_bumpSkill (acc : List SkillMapEntry) (name : String) :
    skillNames (bumpSkill acc name) = skillNames acc := by
  unfold skillNames bumpSkill
  rw [List.map_map]
  exact List.map_congr_left fun e _ => by dsimp; split <;> rfl

/-- Bumping the looked-up name increments exactly its entry's count. -/
theorem findSkill_bumpSkill_self (s : String) (acc : List SkillMapEntry) :
    findSkill s (bumpSkill acc s)
      = (findSkill s acc).map fun e => { e with callCount := e.callCount + 1 } := by
  induction acc with
  | nil => rfl
  | cons e t ih =>
    have hcons : bumpSkill (e :: t) s
        = (if e.name = s then { e with callCount := e.callCount + 1 } else e) :: bumpSkill t s :=
      rfl
    rw [hcons]
    by_cases he : e.name = s
    · rw [if_pos he, findSkill, List.find?_cons_of_pos _ (by simp [he]),
        findSkill, List.find?_cons_of_pos _ (by simp [he])]
      rfl
    · rw [if_neg he, findSkill, List.find?_cons_of_neg _ (by simp [he]),
        findSkill, List.find?_cons_of_neg _ (by simp [he])]
      exact ih

/-- Bumping a different name leaves the lookup unchanged. -/
theorem findSkill_bumpSkill_ne (s name : String) (h : name ≠ s)
    (acc : List SkillMapEntry) :
    findSkill s (bumpSkill acc name) = findSkill s acc := by
  induction acc with
  | nil => rfl
  | cons e t ih =>
    have hcons : bumpSkill (e :: t) name
        = (if e.name = name then { e with callCount := e.callCount + 1 } else e) :: bumpSkill t name :=
      rfl
    rw [hcons]
    by_cases he : e.name = name
    · have hns : ¬e.name = s := fun hs => h (he ▸ hs ▸ rfl)
      rw [if_pos he, findSkill, List.find?_cons_of_neg _ (by simp [hns]),
        findSkill, List.find?_cons_of_neg _ (by simp [hns])]
      exact ih
    · rw [if_neg he]
      by_cases hs : e.name = s
      · rw [findSkill, List.find?_cons_of_pos _ (by simp [hs]),
          findSkill, List.find?_cons_of_pos _ (by simp [hs])]
      · rw [findSkill, List.find?_cons_of_neg _ (by simp [hs]),
          findSkill, List.find?_cons_of_neg _ (by simp [hs])]
        exact ih

/-- Lookup in a one-element extension. -/
theorem findSkill_append_single (s : String) (acc : List SkillMapEntry)
    (e : SkillMapEntry) :
    findSkill s (acc ++ [e])
      = ((findSkill s acc).orElse fun _ => if e.name = s then some e else none) := by
  induction acc with
  | nil =>
    by_cases he : e.name = s
    · rw [List.nil_append, findSkill, List.find?_cons_of_pos _ (by simp [he])]
      simp [findSkill, he]
    · rw [List.nil_append, findSkill, List.find?_cons_of_neg _ (by simp [he])]
      simp [findSkill, he]
  | cons a t ih =>
    by_cases ha : a.name = s
    · rw [List.cons_append, findSkill, List.find?_cons_of_pos _ (by simp [ha]),
        findSkill, List.find?_cons_of_pos _ (by simp [ha])]
      rfl
    · rw [List.cons_append, findSkill, List.find?_cons_of_neg _ (by simp [ha]),
        findSkill, List.find?_cons_of_neg _ (by simp [ha])]
      exact ih

/-- The membership probe of `insertSkill` agrees with the lookup. -/
theorem skillAny_eq_isSome (s : String) (acc : List SkillMapEntry) :
    (acc.any fun e => e.name == s) = (findSkill s acc).isSome := by
  induction acc with
  | nil => rfl
  | cons e t ih =>
    by_cases he : e.name = s
    · rw [List.any_cons, findSkill, List.find?_cons_of_pos _ (by simp [he])]
      simp [he]
    · rw [List.any_cons, findSkill, List.find?_cons_of_neg _ (by simp [he]),
        show (e.name == s) = false by simp [he], Bool.false_or]
      exact ih

/-- Inserting for the looked-up name: bump when present, fresh entry
(with the content tokenized now) when absent. -/
theorem findSkill_insertSkill_self (tok : List Char → Nat) (s : String)
    (acc : List SkillMapEntry) (idx : Nat) (content : List Char) :
    findSkill s (insertSkill tok acc idx s content)
      = match findSkill s acc with
        | some e => some { e with callCount := e.callCount + 1 }
        | none => some { name := s, callCount := 1, firstMessageIndex := idx,
                         tokens := tok content, content := truncateSkillContent content } := by
  unfold insertSkill
  rw [skillAny_eq_isSome]
  rcases hacc : findSkill s acc with _ | e
  · simp only [hacc, Option.isSome_none, Bool.false_eq_true, if_false]
    rw [findSkill_append_single, hacc]
    simp
  · simp only [hacc, Option.isSome_some, if_true]
    rw [findSkill_bumpSkill_self, hacc]
    rfl

/-- Inserting for a different name leaves the lookup unchanged. -/
theorem findSkill_insertSkill_ne (tok : List Char → Nat) (s name : String)
    (h : name ≠ s) (acc : List SkillMapEntry) (idx : Nat) (content : List Char) :
    findSkill s (insertSkill tok acc idx name content) = findSkill s acc := by
  unfold insertSkill
  split
  · exact findSkill_bumpSkill_ne s name h acc
  · rw [findSkill_append_single]
    simp only [h, if_false]
    rcases hacc : findSkill s acc with _ | e <;> simp

/-- Effect of one part on the lookup for skill `s`: only a qualifying
invocation of `s` changes it — a bump when tracked, a fresh tokenized
entry when not. -/
theorem processSkillPart_findSkill (tok : List Char → Nat) (s : String) (msgIdx : Nat)
    (acc : List SkillMapEntry) (part : SessionMessagePart) :
    findSkill s (processSkillPart tok msgIdx acc part)
      = match partSkillContent s part with
        | none => findSkill s acc
        | some c =>
          match findSkill s acc with
          | some e => some { e with callCount := e.callCount + 1 }
          | none => some { name := s, callCount := 1, firstMessageIndex := msgIdx,
                           tokens := tok c, content := truncateSkillContent c } := by
  cases part with
  | text c => rfl
  | reasoning c => rfl
  | other => rfl
  | tool toolName state =>
    by_cases hc : toolName = "skill" ∧ state.status = "completed"
    · obtain ⟨hc1, hc2⟩ := hc
      subst hc1
      rcases hname : extractSkillName state with _ | n
      · have hpc : partSkillContent s (.tool "skill" state) = none := by
          simp [partSkillContent, hname]
        have hstep : processSkillPart tok msgIdx acc (.tool "skill" state) = acc := by
          simp [processSkillPart, hc2, hname]
        rw [hstep, hpc]
      · by_cases hempty : (jsTrim (state.output.getD [])).isEmpty
        · have hpc : partSkillContent s (.tool "skill" state) = none := by
            simp [partSkillContent, hempty]
          have hstep : processSkillPart tok msgIdx acc (.tool "skill" state) = acc := by
            simp [processSkillPart, hc2, hname, hempty]
          rw [hstep, hpc]
        · by_cases hn : n = s
          · rw [hn] at hname
            have hpc : partSkillContent s (.tool "skill" state)
                = some (jsTrim (state.output.getD [])) := by
              simp [partSkillContent, hc2, hname, hempty]
            have hstep : processSkillPart tok msgIdx acc (.tool "skill" state)
                = insertSkill tok acc msgIdx s (jsTrim (state.output.getD [])) := by
              simp [processSkillPart, hc2, hname, hempty]
            rw [hstep, hpc]
            exact findSkill_insertSkill_self tok s acc msgIdx _
          · have hpc : partSkillContent s (.tool "skill" state) = none := by
              simp [partSkillContent, hname, hn]
            have hstep : processSkillPart tok msgIdx acc (.tool "skill" state)
                = insertSkill tok acc msgIdx n (jsTrim (state.output.getD [])) := by
              simp [processSkillPart, hc2, hname, hempty]
            rw [hstep, hpc]
            exact findSkill_insertSkill_ne tok s n hn acc msgIdx _
    · have hpc : partSkillContent s (.tool toolName state) = none := by
        simp only [partSkillContent]
        rw [if_neg (by tauto)]
      have hstep : processSkillPart tok msgIdx acc (.tool toolName state) = acc := by
        simp [processSkillPart, hc]
      rw [hstep, hpc]

/-- Effect of one message's parts on the lookup for skill `s`: the entry's
count grows by the number of qualifying invocations; the first one (if the
skill was untracked) fixes the tokenized cost from its own content. -/
theorem foldl_processSkillPart (tok : List Char → Nat) (s : String) (msgIdx : Nat) :
    ∀ (parts : List SessionMessagePart) (acc : List SkillMapEntry),
      findSkill s (parts.foldl (processSkillPart tok msgIdx) acc)
        = match findSkill s acc, parts.filterMap (partSkillContent s) with
          | some e, calls => some { e with callCount := e.callCount + calls.length }
          | none, [] => none
          | none, c :: cs => some { name := s, callCount := cs.length + 1,
                                    firstMessageIndex := msgIdx, tokens := tok c,
                                    content := truncateSkillContent c }
  | [], acc => by
    rcases h : findSkill s acc with _ | e
    · simp [h]
    · simp [h]
  | p :: parts, acc => by
    rw [List.foldl_cons,
      foldl_processSkillPart tok s msgIdx parts (processSkillPart tok msgIdx acc p),
      processSkillPart_findSkill tok s msgIdx acc p]
    rcases hp : partSkillContent s p with _ | c <;>
      simp only [List.filterMap_cons, hp]
    rcases hacc : findSkill s acc with _ | e
    · simp [Nat.add_comm]
    · simp only []
      congr 1
      cases e
      simp
      omega

/-- Splitting the qualifying invocations of a transcript at its first
message. -/
theorem skillCallContents_cons (s : String) (m : SessionMessage)
    (rest : List SessionMessage) :
    skillCallContents s (m :: rest)
      = m.parts.filterMap (partSkillContent s) ++ skillCallContents s rest := by
  simp [skillCallContents]

/-- Effect of a whole transcript on the lookup for skill `s`: a tracked
entry's count grows by the number of qualifying invocations; an untracked
skill ends untracked when there are none, and otherwise ends with the
first invocation's tokenized cost and the total invocation count. -/
theorem processSkillMessages_findSkill (tok : List Char → Nat) (s : String) :
    ∀ (messages : List SessionMessage) (msgIdx : Nat) (acc : List SkillMapEntry),
      (∀ e, findSkill s acc = some e →
        findSkill s (processSkillMessages tok messages msgIdx acc)
          = some { e with callCount := e.callCount + (skillCallContents s messages).length })
      ∧ (findSkill s acc = none →
          (skillCallContents s messages = [] →
              findSkill s (processSkillMessages tok messages msgIdx acc) = none)
            ∧ ∀ c cs, skillCallContents s messages = c :: cs →
                ∃ e, findSkill s (processSkillMessages tok messages msgIdx acc) = some e
                  ∧ e.name = s ∧ e.tokens = tok c ∧ e.callCount = cs.length + 1)
  | [], msgIdx, acc => by
    constructor
    · intro e he
      show findSkill s acc = _
      rw [he]
      cases e
      simp [skillCallContents]
    · intro hnone
      exact ⟨fun _ => hnone, fun c cs hcs => by simp [skillCallContents] at hcs⟩
  | m :: rest, msgIdx, acc => by
    have hstep : processSkillMessages tok (m :: rest) msgIdx acc
        = processSkillMessages tok rest
            (if m.info.role = "user" ∨ m.info.role = "assistant" then msgIdx + 1 else msgIdx)
            (m.parts.foldl
              (processSkillPart tok
                (if m.info.role = "user" ∨ m.info.role = "assistant" then msgIdx + 1 else msgIdx))
              acc) := rfl
    set idx' := if m.info.role = "user" ∨ m.info.role = "assistant" then msgIdx + 1 else msgIdx
      with hidx'
    set acc' := m.parts.foldl (processSkillPart tok idx') acc with haccdef
    rw [hstep, skillCallContents_cons]
    constructor
    · intro e he
      have hacc' : findSkill s acc'
          = some { e with callCount := e.callCount + (m.parts.filterMap (partSkillContent s)).length } := by
        rw [haccdef, foldl_processSkillPart, he]
      have hrec := (processSkillMessages_findSkill tok s rest idx' acc').1 _ hacc'
      rw [hrec, List.length_append]
      cases e
      simp
      omega
    · intro hnone
      rcases hM : m.parts.filterMap (partSkillContent s) with _ | ⟨c, cs⟩
      · have hacc' : findSkill s acc' = none := by
          rw [haccdef, foldl_processSkillPart, hnone, hM]
        obtain ⟨hemp, hcons⟩ := (processSkillMessages_findSkill tok s rest idx' acc').2 hacc'
        constructor
        · intro htot
          exact hemp (by simpa using htot)
        · intro c0 cs0 hcs0
          exact hcons c0 cs0 (by simpa using hcs0)
      · have hacc' : findSkill s acc'
            = some { name := s, callCount := cs.length + 1, firstMessageIndex := idx',
                     tokens := tok c, content := truncateSkillContent c } := by
          rw [haccdef, foldl_processSkillPart, hnone, hM]
        have hrec := (processSkillMessages_findSkill tok s rest idx' acc').1 _ hacc'
        constructor
        · intro htot
          simp at htot
        · intro c0 cs0 hcs0
          rw [List.cons_append] at hcs0
          have hc0 : c = c0 := (List.cons.inj hcs0).1
          have hcs : cs ++ skillCallContents s rest = cs0 := (List.cons.inj hcs0).2
          refine ⟨_, hrec, rfl, by rw [← hc0], ?_⟩
          have hlen : cs0.length = cs.length + (skillCallContents s rest).length := by
            rw [← hcs, List.length_append]
          simp [hlen]
          omega

/-- Insertion keeps the map keys unique. -/
theorem skillNames_nodup_insertSkill (tok : List Char → Nat) (acc : List SkillMapEntry)
    (idx : Nat) (name : String) (content : List Char)
    (h : (skillNames acc).Nodup) :
    (skillNames (insertSkill tok acc idx name content)).Nodup := by
  unfold insertSkill
  split
  · rwa [skillNames_bumpSkill]
  · rename_i hany
    have hnotin : name ∉ skillNames acc := by
      intro hin
      obtain ⟨e, he, hne⟩ := List.mem_map.mp hin
      exact hany (List.any_eq_true.mpr ⟨e, he, by simp [hne]⟩)
    have hnames : ∀ e : SkillMapEntry, skillNames (acc ++ [e]) = skillNames acc ++ [e.name] :=
      fun e => by simp [skillNames]
    rw [hnames]
    refine List.Nodup.append h (List.nodup_singleton _) ?_
    intro x hx hx'
    rw [List.mem_singleton] at hx'
    simp only [] at hx'
    exact hnotin (by rwa [hx'] at hx)

/-- One part keeps the map keys unique. -/
theorem skillNames_nodup_processSkillPart (tok : List Char → Nat) (msgIdx : Nat)
    (acc : List SkillMapEntry) (part : SessionMessagePart)
    (h : (skillNames acc).Nodup) :
    (skillNames (processSkillPart tok msgIdx acc part)).Nodup := by
  cases part with
  | text c => exact h
  | reasoning c => exact h
  | other => exact h
  | tool toolName state =>
    by_cases hc : toolName = "skill" ∧ state.status = "completed"
    · rcases hname : extractSkillName state with _ | n
      · have hid : processSkillPart tok msgIdx acc (.tool toolName state) = acc := by
          simp [processSkillPart, hc, hname]
        rwa [hid]
      · by_cases hempty : (jsTrim (state.output.getD [])).isEmpty
        · have hid : processSkillPart tok msgIdx acc (.tool toolName state) = acc := by
            simp [processSkillPart, hc, hname, hempty]
          rwa [hid]
        · have hid : processSkillPart tok msgIdx acc (.tool toolName state)
              = insertSkill tok acc msgIdx n (jsTrim (state.output.getD [])) := by
            simp [processSkillPart, hc, hname, hempty]
          rw [hid]
          exact skillNames_nodup_insertSkill tok acc msgIdx n _ h
    · have hid : processSkillPart tok msgIdx acc (.tool toolName state) = acc := by
        simp [processSkillPart, hc]
      rwa [hid]

/-- A message's parts keep the map keys unique. -/
theorem skillNames_nodup_foldl (tok : List Char → Nat) (msgIdx : Nat) :
    ∀ (parts : List SessionMessagePart) (acc : List SkillMapEntry),
      (skillNames acc).Nodup →
      (skillNames (parts.foldl (processSkillPart tok msgIdx) acc)).Nodup
  | [], _, h => h
  | p :: parts, acc, h =>
    skillNames_nodup_foldl tok msgIdx parts _
      (skillNames_nodup_processSkillPart tok msgIdx acc p h)

/-- A whole transcript keeps the map keys unique. -/
theorem skillNames_nodup_messages (tok : List Char → Nat) :
    ∀ (messages : List SessionMessage) (msgIdx : Nat) (acc : List SkillMapEntry),
      (skillNames acc).Nodup →
      (skillNames (processSkillMessages tok messages msgIdx acc)).Nodup
  | [], _, _, h => h
  | m :: rest, msgIdx, acc, h =>
    skillNames_nodup_messages tok rest _ _ (skillNames_nodup_foldl tok _ m.parts acc h)

/-- With unique keys, any member with the looked-up name is the lookup
result. -/
theorem findSkill_eq_of_mem (s : String) :
    ∀ (acc : List SkillMapEntry), (skillNames acc).Nodup →
      ∀ e ∈ acc, e.name = s → findSkill s acc = some e
  | [], _, e, he, _ => absurd he (List.not_mem_nil e)
  | a :: t, hnd, e, he, hn => by
    have hcons : skillNames (a :: t) = a.name :: skillNames t := by simp [skillNames]
    rw [hcons] at hnd
    have h1 := (List.nodup_cons.mp hnd).1
    have h2 := (List.nodup_cons.mp hnd).2
    rcases List.mem_cons.mp he with rfl | ht
    · rw [findSkill, List.find?_cons_of_pos _ (by simp [hn])]
    · have ha : ¬a.name = s := by
        intro has
        refine h1 ?_
        rw [has, ← hn]
        exact List.mem_map_of_mem _ ht
      rw [findSkill, List.find?_cons_of_neg _ (by simp [ha])]
      exact findSkill_eq_of_mem s t h2 e ht hn

/-- C5: for every transcript in which skill `s` has `k = cs.length + 1 ≥ 1`
completed invocations with non-empty output, the returned `LoadedSkill`
entry for `s` is unique, its per-call cost is the token count of the first
such invocation's (trimmed) output, and `totalTokens` is exactly that cost
times the invocation count. -/
theorem getLoadedSkills_multiplier (tok : List Char → Nat)
    (messages : List SessionMessage) (s : String) (c : List Char)
    (cs : List (List Char)) (hcalls : skillCallContents s messages = c :: cs) :
    ∃ e ∈ (getLoadedSkills tok messages).skills,
      e.name = s ∧ e.tokens = tok c ∧ e.callCount = cs.length + 1
        ∧ e.totalTokens = tok c * (cs.length + 1)
        ∧ ∀ e' ∈ (getLoadedSkills tok messages).skills, e'.name = s → e' = e := by
  set entries := processSkillMessages tok messages 0 [] with hentries
  have hnil : findSkill s ([] : List SkillMapEntry) = none := rfl
  obtain ⟨me, hfind, hname, htok, hcount⟩ :=
    ((processSkillMessages_findSkill tok s messages 0 []).2 hnil).2 c cs hcalls
  have hmem : me ∈ entries := List.mem_of_find?_eq_some hfind
  have hnodup : (skillNames entries).Nodup :=
    skillNames_nodup_messages tok messages 0 [] (by simp [skillNames])
  have hskills : (getLoadedSkills tok messages).skills
      = (entries.map mkLoadedSkill).insertionSort loadedSkillRel := rfl
  have hperm := List.perm_insertionSort loadedSkillRel (entries.map mkLoadedSkill)
  refine ⟨mkLoadedSkill me, ?_, hname, htok, hcount, ?_, ?_⟩
  · rw [hskills]
    exact hperm.mem_iff.mpr (List.mem_map_of_mem _ hmem)
  · show me.tokens * me.callCount = tok c * (cs.length + 1)
    rw [htok, hcount]
  · intro e' he' hsname
    rw [hskills] at he'
    obtain ⟨me', hmem', rfl⟩ := List.mem_map.mp (hperm.mem_iff.mp he')
    have hfind' : findSkill s entries = some me' :=
      findSkill_eq_of_mem s entries hnodup me' hmem' hsname
    rw [hfind] at hfind'
    exact congrArg mkLoadedSkill (Option.some.inj hfind').symm

/-- C5 (witness): skill `research` invoked three times (outputs `abcd`,
`abcd`, `xy`); the entry bills the first output's count per call, three
times. -/
theorem getLoadedSkills_multiplier_witness :
    skillCallContents "research" skillMsgs = ["abcd".toList, "abcd".toList, "xy".toList]
      ∧ ∃ e ∈ (getLoadedSkills approximateTokenCount skillMsgs).skills,
          e.name = "research" ∧ e.tokens = approximateTokenCount "abcd".toList
            ∧ e.callCount = ["abcd".toList, "xy".toList].length + 1
            ∧ e.totalTokens
                = approximateTokenCount "abcd".toList * (["abcd".toList, "xy".toList].length + 1)
            ∧ ∀ e' ∈ (getLoadedSkills approximateTokenCount skillMsgs).skills,
                e'.name = "research" → e' = e :=
  ⟨by decide,
   getLoadedSkills_multiplier approximateTokenCount skillMsgs "research" "abcd".toList
     ["abcd".toList, "xy".toList] (by decide)⟩
